import Mathlib

/-!
Shallow embedding of the micattix game engine (src/core.rs, src/game.rs).

Randomness: `Board::new` in the source shuffles a fixed tile multiset with a
process-wide RNG.  The embedding takes the shuffled list as an explicit
parameter; theorems quantify over every permutation of the generated multiset,
hence over every shuffle outcome.  Rust `i32` scores are modelled as `Int`
(comparisons against `i32::MIN` keep the literal `-2147483648`).  The in-place
mutation of `&mut self` methods is modelled by explicit state passing: a method
returns the updated value together with its `Result`.  Event emission by
`GameManager` is modelled by returning the list of events that every registered
listener receives, in emission order.  `HashMap<Player, _>` fields, which the
constructors populate for every active player, are modelled as total functions
from `Player`.
-/

namespace Micattix

/-- Game mode (core.rs `GameMode`). -/
inductive GameMode where
  | TwoPlayers
  | FourPlayers
deriving DecidableEq

/-- Board size (core.rs `BoardSize`). -/
inductive BoardSize where
  | Small
  | Large
deriving DecidableEq

/-- core.rs `BoardSize::dimensions`. -/
def BoardSize.dimensions : BoardSize → Nat × Nat
  | .Small => (4, 4)
  | .Large => (6, 6)

/-- core.rs `Player`. -/
inductive Player where
  | First
  | Second
  | Third
  | Fourth
deriving DecidableEq

/-- core.rs `MoveDirection`. -/
inductive MoveDirection where
  | Horizontal
  | Vertical
deriving DecidableEq

/-- core.rs `Player::direction`. -/
def Player.direction : Player → MoveDirection
  | .First => .Horizontal
  | .Third => .Horizontal
  | .Second => .Vertical
  | .Fourth => .Vertical

/-- core.rs `Player::next`. -/
def Player.next : Player → Player
  | .First => .Second
  | .Second => .Third
  | .Third => .Fourth
  | .Fourth => .First

/-- core.rs `Player::next_for_mode`. -/
def Player.next_for_mode (p : Player) (game_mode : GameMode) : Player :=
  match game_mode with
  | .TwoPlayers =>
    match p with
    | .First => .Second
    | .Second => .First
    | .Third => .Fourth
    | .Fourth => .Third
  | .FourPlayers => p.next

/-- core.rs `Player::get_players`. -/
def Player.get_players : GameMode → List Player
  | .TwoPlayers => [Player.First, Player.Second]
  | .FourPlayers => [Player.First, Player.Second, Player.Third, Player.Fourth]

/-- core.rs `Piece`. -/
inductive Piece where
  | Number (n : Int)
  | Cross
  | Empty
deriving DecidableEq

/-- core.rs `Board` (grid of pieces plus marker position). -/
structure Board where
  size : BoardSize
  pieces : List (List Piece)
  cross_position : Nat × Nat
deriving DecidableEq

/-- The tile multiset built by core.rs `Board::initialize` before shuffling:
for `Small`, 1..=7 twice each, one 8 and the cross; for `Large`, 1..=9 twice
each, -1..=-10 once each, one 10, the cross and filler 1..=6. -/
def piecesSet : BoardSize → List Piece
  | .Small =>
    ((List.range 7).flatMap
      (fun i => [Piece.Number ((i : Int) + 1), Piece.Number ((i : Int) + 1)]))
      ++ [Piece.Number 8, Piece.Cross]
  | .Large =>
    ((List.range 9).flatMap
      (fun i => [Piece.Number ((i : Int) + 1), Piece.Number ((i : Int) + 1)]))
      ++ ((List.range 10).map (fun i => Piece.Number (-((i : Int) + 1))))
      ++ [Piece.Number 10, Piece.Cross]
      ++ ((List.range 6).map (fun i => Piece.Number ((i : Int) + 1)))

/-- The tile multiset exactly as the spec documents it: Small — values 1..7
twice each, one 8, one Cross (16 cells); Large — values 1..9 twice each,
-1..-10 once each, 10 once, one Cross, plus filler values 1..6 once each
(36 cells).  Written from the wording of the spec, to be compared with `piecesSet`,
which is written from the source. -/
def documentedTiles : BoardSize → List Piece
  | .Small =>
    [Piece.Number 1, Piece.Number 1, Piece.Number 2, Piece.Number 2,
     Piece.Number 3, Piece.Number 3, Piece.Number 4, Piece.Number 4,
     Piece.Number 5, Piece.Number 5, Piece.Number 6, Piece.Number 6,
     Piece.Number 7, Piece.Number 7, Piece.Number 8, Piece.Cross]
  | .Large =>
    [Piece.Number 1, Piece.Number 1, Piece.Number 2, Piece.Number 2,
     Piece.Number 3, Piece.Number 3, Piece.Number 4, Piece.Number 4,
     Piece.Number 5, Piece.Number 5, Piece.Number 6, Piece.Number 6,
     Piece.Number 7, Piece.Number 7, Piece.Number 8, Piece.Number 8,
     Piece.Number 9, Piece.Number 9,
     Piece.Number (-1), Piece.Number (-2), Piece.Number (-3), Piece.Number (-4),
     Piece.Number (-5), Piece.Number (-6), Piece.Number (-7), Piece.Number (-8),
     Piece.Number (-9), Piece.Number (-10),
     Piece.Number 10, Piece.Cross,
     Piece.Number 1, Piece.Number 2, Piece.Number 3, Piece.Number 4,
     Piece.Number 5, Piece.Number 6]

/-- Row-major placement of the shuffled list into the grid, as done by the
nested loop of core.rs `Board::initialize` (row `r` receives indices
`r*cols .. r*cols+cols-1` of the shuffled list). -/
def buildGrid : List Piece → Nat → Nat → List (List Piece)
  | _, 0, _ => []
  | l, rows + 1, cols => l.take cols :: buildGrid (l.drop cols) rows cols

/-- The `cross_position` computed by the placement loop of
core.rs `Board::initialize`: every time a `Cross` is placed at flat index `i`,
the position is overwritten with `(i / cols, i % cols)`; the accumulator starts
at the provisional `(0, 0)`. -/
def crossPosAux (cols : Nat) : List Piece → Nat → Nat × Nat → Nat × Nat
  | [], _, pos => pos
  | p :: rest, i, pos =>
    crossPosAux cols rest (i + 1) (if p = Piece.Cross then (i / cols, i % cols) else pos)

/-- core.rs `Board::new` followed by `Board::initialize`, with the shuffle
outcome `l` passed explicitly.  Returns `none` exactly when the
`assert_eq!(pieces_set.len(), total_cells)` of `initialize` would fire. -/
def Board.new (size : BoardSize) (l : List Piece) : Option Board :=
  let rows := size.dimensions.1
  let cols := size.dimensions.2
  if l.length = rows * cols then
    some { size := size
           pieces := buildGrid l rows cols
           cross_position := crossPosAux cols l 0 (0, 0) }
  else
    none

/-- Cell read `self.pieces[r][c]`, with `Piece.Empty` as the out-of-bounds
default (all theorems that depend on cell reads carry well-formedness
hypotheses under which every source-side read is in bounds). -/
def Board.getCell (b : Board) (r c : Nat) : Piece :=
  (b.pieces.getD r []).getD c Piece.Empty

/-- Cell write `self.pieces[r][c] = p` (a no-op out of bounds; used only at
in-bounds coordinates by the theorems). -/
def setCell (g : List (List Piece)) (r c : Nat) (p : Piece) : List (List Piece) :=
  g.set r ((g.getD r []).set c p)

/-- core.rs `Board::get_valid_moves`. -/
def Board.get_valid_moves (b : Board) (player : Player) : List (Nat × Nat) :=
  let row := b.cross_position.1
  let col := b.cross_position.2
  let rows := b.size.dimensions.1
  let cols := b.size.dimensions.2
  match player.direction with
  | .Horizontal =>
    ((List.range cols).filter
      (fun c => decide (c ≠ col) && decide (b.getCell row c ≠ Piece.Empty))).map
      (fun c => (row, c))
  | .Vertical =>
    ((List.range rows).filter
      (fun r => decide (r ≠ row) && decide (b.getCell r col ≠ Piece.Empty))).map
      (fun r => (r, col))

/-- The error message `format!("Invalid move to {:?}", target)` of
core.rs `Board::make_move`. -/
def invalidMoveMsg (target : Nat × Nat) : String :=
  "Invalid move to (" ++ toString target.1 ++ ", " ++ toString target.2 ++ ")"

/-- core.rs `Board::make_move`: validity check, then capture of the target
piece, clearing of the old marker cell, placement of the marker and update of
`cross_position`.  Returns the board after the call together with the
`Result`. -/
def Board.make_move (b : Board) (player : Player) (target : Nat × Nat) :
    Board × Except String Piece :=
  let valid_moves := b.get_valid_moves player
  if target ∈ valid_moves then
    let piece := b.getCell target.1 target.2
    let g1 := setCell b.pieces b.cross_position.1 b.cross_position.2 Piece.Empty
    let g2 := setCell g1 target.1 target.2 Piece.Cross
    ({ b with pieces := g2, cross_position := target }, Except.ok piece)
  else
    (b, Except.error (invalidMoveMsg target))

/-- core.rs `Board::is_game_over`: true iff every cell is `Empty` or the
cross. -/
def Board.is_game_over (b : Board) : Bool :=
  let rows := b.size.dimensions.1
  let cols := b.size.dimensions.2
  (List.range rows).all (fun r => (List.range cols).all (fun c =>
    decide (b.getCell r c = Piece.Empty ∨ b.getCell r c = Piece.Cross)))

/-- core.rs `Board::get_piece` (out-of-bounds coordinates yield `Empty`; the
bound check uses `pieces.len()` and `pieces[0].len()` like the source). -/
def Board.get_piece (b : Board) (row col : Nat) : Piece :=
  if row < b.pieces.length ∧ col < (b.pieces.getD 0 []).length then
    b.getCell row col
  else
    Piece.Empty

/-- Structural well-formedness of a board: grid dimensions match
`size.dimensions` and the marker position is in bounds.  Every board the
source constructs satisfies this; source-side `Vec` indexing is only defined
under it. -/
def Board.wellFormed (b : Board) : Prop :=
  b.pieces.length = b.size.dimensions.1 ∧
  (∀ row ∈ b.pieces, row.length = b.size.dimensions.2) ∧
  b.cross_position.1 < b.size.dimensions.1 ∧
  b.cross_position.2 < b.size.dimensions.2

instance (b : Board) : Decidable b.wellFormed := by
  unfold Board.wellFormed; infer_instance

/-- Exactly one cell of the board holds the cross, namely the one recorded in
`cross_position`. -/
def Board.oneCrossAt (b : Board) : Prop :=
  ∀ r < b.size.dimensions.1, ∀ c < b.size.dimensions.2,
    (b.getCell r c = Piece.Cross ↔ (r, c) = b.cross_position)

instance (b : Board) : Decidable b.oneCrossAt := by
  unfold Board.oneCrossAt; infer_instance

/-- The board invariant: well-formed grid and a unique marker cell. -/
def Board.invariant (b : Board) : Prop :=
  b.wellFormed ∧ b.oneCrossAt

/-- game.rs `PlayerScore`. -/
structure PlayerScore where
  pieces : List Piece
  total : Int
deriving DecidableEq

/-- game.rs `PlayerScore::new`. -/
def PlayerScore.new : PlayerScore :=
  { pieces := [], total := 0 }

/-- game.rs `PlayerScore::add_piece`: numeric pieces contribute their value to
the running total; every captured piece is appended to the history. -/
def PlayerScore.add_piece (s : PlayerScore) (piece : Piece) : PlayerScore :=
  let s1 :=
    match piece with
    | Piece.Number value => { s with total := s.total + value }
    | _ => s
  { s1 with pieces := s1.pieces ++ [piece] }

/-- game.rs `GameSession`.  The `HashMap<Player, _>` score maps (populated for
every active player by the constructors) are modelled as total functions. -/
structure GameSession where
  board : Board
  current_player : Player
  scores : Player → PlayerScore
  round : Nat
  total_scores : Player → Int
  game_mode : GameMode
  players : List Player

/-- game.rs `GameSession::new`, with the shuffle outcome `l` of the fresh
board passed explicitly. -/
def GameSession.new (size : BoardSize) (game_mode : GameMode) (l : List Piece) :
    Option GameSession :=
  (Board.new size l).map (fun b =>
    { board := b
      current_player := Player.First
      scores := fun _ => PlayerScore.new
      round := 1
      total_scores := fun _ => 0
      game_mode := game_mode
      players :=
        match game_mode with
        | .TwoPlayers => [Player.First, Player.Second]
        | .FourPlayers => [Player.First, Player.Second, Player.Third, Player.Fourth] })

/-- game.rs `GameSession::process_move`: delegates to `Board::make_move`, adds
a captured `Number` to the round score of the current player, then advances the
current player by `next_for_mode`; on error the session is returned as it
was. -/
def GameSession.process_move (s : GameSession) (target : Nat × Nat) :
    GameSession × Except String Unit :=
  let res := s.board.make_move s.current_player target
  match res.2 with
  | Except.ok piece =>
    let s1 := { s with board := res.1 }
    let s2 :=
      match piece with
      | Piece.Number _ =>
        { s1 with scores := fun p =>
            if p = s.current_player then (s1.scores s.current_player).add_piece piece
            else s1.scores p }
      | _ => s1
    ({ s2 with current_player := s.current_player.next_for_mode s.game_mode },
     Except.ok ())
  | Except.error e => ({ s with board := res.1 }, Except.error e)

/-- game.rs `GameSession::is_round_over`. -/
def GameSession.is_round_over (s : GameSession) : Bool :=
  s.board.is_game_over

/-- Rust `i32::MIN`, the initial value of the highest-score accumulator in
the winner scans of game.rs. -/
def i32min : Int := -2147483648

/-- The scanning loop shared by game.rs `GameSession::get_round_winner` and
`GameSession::get_overall_winner`: walks the active player list tracking the
highest score seen, the player who first reached it and a tie flag. -/
def winnerScan (score : Player → Int) :
    List Player → Int → Option Player → Bool → Option Player
  | [], _, winner, is_tie => if is_tie then none else winner
  | p :: rest, highest, winner, is_tie =>
    if score p > highest then winnerScan score rest (score p) (some p) false
    else if score p = highest then winnerScan score rest highest winner true
    else winnerScan score rest highest winner is_tie

/-- game.rs `GameSession::get_round_winner`. -/
def GameSession.get_round_winner (s : GameSession) : Option Player :=
  if ¬ s.is_round_over then none
  else winnerScan (fun p => (s.scores p).total) s.players i32min none false

/-- game.rs `GameSession::get_overall_winner`. -/
def GameSession.get_overall_winner (s : GameSession) : Option Player :=
  winnerScan s.total_scores s.players i32min none false

/-- game.rs `GameSession::start_next_round`, with the shuffle outcome `l` of
the replacement board passed explicitly: folds round totals into cumulative
totals, rebuilds the board at the same size, resets round scores, increments
the round counter and rotates the starting player. -/
def GameSession.start_next_round (s : GameSession) (l : List Piece) :
    Option GameSession :=
  let total_scores := s.players.foldl
    (fun ts p => fun q => if q = p then ts p + (s.scores p).total else ts q)
    s.total_scores
  (Board.new s.board.size l).map (fun b =>
    let scores := s.players.foldl
      (fun sc p => fun q => if q = p then PlayerScore.new else sc q) s.scores
    let round := s.round + 1
    let current_player :=
      if round > 1 then s.players.getD ((round - 1) % s.players.length) Player.First
      else s.current_player
    { s with board := b, scores := scores, round := round,
             total_scores := total_scores, current_player := current_player })

/-- game.rs `GameEvent`.  The score snapshots carried by `RoundEnded` and
`GameEnded` are modelled as total functions, matching the total-function model
of the session score maps. -/
inductive GameEvent where
  | GameStarted
  | RoundStarted (round : Nat)
  | MoveMade (player : Player) (target : Nat × Nat) (piece : Piece)
  | InvalidMove (player : Player) (target : Nat × Nat) (reason : String)
  | RoundEnded (winner : Option Player) (scores : Player → Int)
  | GameEnded (winner : Option Player) (totals : Player → Int)

/-- game.rs `GameManager::make_move`.  The listener list of the manager is
abstracted away: the returned event list is what `notify` delivers, in order,
to every registered listener. -/
def GameManager.make_move (s : GameSession) (target : Nat × Nat) :
    GameSession × List GameEvent :=
  let current_player := s.current_player
  let res := s.process_move target
  match res.2 with
  | Except.ok _ =>
    let s1 := res.1
    let last_piece := ((s1.scores current_player).pieces).getLastD Piece.Empty
    if s1.is_round_over then
      (s1, [GameEvent.MoveMade current_player target last_piece,
            GameEvent.RoundEnded s1.get_round_winner (fun p => (s1.scores p).total)])
    else
      (s1, [GameEvent.MoveMade current_player target last_piece])
  | Except.error e => (res.1, [GameEvent.InvalidMove current_player target e])

/-- Boards reachable in the source: produced by `Board::new` from some shuffle
outcome, or obtained from a reachable board by a successful `make_move`. -/
inductive Board.Reachable : Board → Prop where
  | init (size : BoardSize) (l : List Piece) (b : Board)
      (hperm : l.Perm (piecesSet size)) (hnew : Board.new size l = some b) :
      Board.Reachable b
  | step (b b2 : Board) (player : Player) (target : Nat × Nat) (piece : Piece)
      (hb : Board.Reachable b)
      (hmove : b.make_move player target = (b2, Except.ok piece)) :
      Board.Reachable b2

/-! ### Concrete fixtures -/

/-- A 4x4 board with the marker at (1,2), a 5-tile at (1,3) and 1-tiles
everywhere else (the setup used by the move tests of the repository itself). -/
def testBoard : Board :=
  { size := BoardSize.Small
    pieces :=
      [[Piece.Number 1, Piece.Number 1, Piece.Number 1, Piece.Number 1],
       [Piece.Number 1, Piece.Number 1, Piece.Cross, Piece.Number 5],
       [Piece.Number 1, Piece.Number 1, Piece.Number 1, Piece.Number 1],
       [Piece.Number 1, Piece.Number 1, Piece.Number 1, Piece.Number 1]]
    cross_position := (1, 2) }

/-- A fresh two-player session on `testBoard`. -/
def testSession : GameSession :=
  { board := testBoard
    current_player := Player.First
    scores := fun _ => PlayerScore.new
    round := 1
    total_scores := fun _ => 0
    game_mode := GameMode.TwoPlayers
    players := [Player.First, Player.Second] }

/-- The board produced by `Board::new(Small)` when the shuffle leaves the tile
list in generation order. -/
def initBoardSmall : Board :=
  { size := BoardSize.Small
    pieces :=
      [[Piece.Number 1, Piece.Number 1, Piece.Number 2, Piece.Number 2],
       [Piece.Number 3, Piece.Number 3, Piece.Number 4, Piece.Number 4],
       [Piece.Number 5, Piece.Number 5, Piece.Number 6, Piece.Number 6],
       [Piece.Number 7, Piece.Number 7, Piece.Number 8, Piece.Cross]]
    cross_position := (3, 3) }

/-- A cleared 4x4 board (only the marker remains), so the round is over. -/
def doneBoard : Board :=
  { size := BoardSize.Small
    pieces :=
      [[Piece.Cross, Piece.Empty, Piece.Empty, Piece.Empty],
       [Piece.Empty, Piece.Empty, Piece.Empty, Piece.Empty],
       [Piece.Empty, Piece.Empty, Piece.Empty, Piece.Empty],
       [Piece.Empty, Piece.Empty, Piece.Empty, Piece.Empty]]
    cross_position := (0, 0) }

/-- A finished-round session with three active players whose round totals and
cumulative totals are 10, 10 and 5 (a tie at the maximum). -/
def tieSession : GameSession :=
  { board := doneBoard
    current_player := Player.First
    scores := fun p =>
      match p with
      | Player.First => { pieces := [], total := 10 }
      | Player.Second => { pieces := [], total := 10 }
      | Player.Third => { pieces := [], total := 5 }
      | Player.Fourth => { pieces := [], total := 0 }
    round := 1
    total_scores := fun p =>
      match p with
      | Player.First => 10
      | Player.Second => 10
      | Player.Third => 5
      | Player.Fourth => 0
    game_mode := GameMode.FourPlayers
    players := [Player.First, Player.Second, Player.Third] }

/-- A finished-round session with three active players whose round totals and
cumulative totals are 10, 7 and 5 (a strict maximum). -/
def clearSession : GameSession :=
  { board := doneBoard
    current_player := Player.First
    scores := fun p =>
      match p with
      | Player.First => { pieces := [], total := 10 }
      | Player.Second => { pieces := [], total := 7 }
      | Player.Third => { pieces := [], total := 5 }
      | Player.Fourth => { pieces := [], total := 0 }
    round := 1
    total_scores := fun p =>
      match p with
      | Player.First => 10
      | Player.Second => 7
      | Player.Third => 5
      | Player.Fourth => 0
    game_mode := GameMode.FourPlayers
    players := [Player.First, Player.Second, Player.Third] }

/-! ### Grid placement lemmas -/

theorem dimensions_pos (size : BoardSize) :
    0 < size.dimensions.1 ∧ 0 < size.dimensions.2 := by
  cases size <;> simp [BoardSize.dimensions]

theorem buildGrid_length (rows : Nat) :
    ∀ (l : List Piece) (cols : Nat), (buildGrid l rows cols).length = rows := by
  induction rows with
  | zero => intro l cols; rfl
  | succ n ih => intro l cols; simp [buildGrid, ih]

theorem buildGrid_row_length (rows : Nat) :
    ∀ (l : List Piece) (cols : Nat), l.length = rows * cols →
      ∀ row ∈ buildGrid l rows cols, row.length = cols := by
  induction rows with
  | zero => intro l cols _ row hrow; simp [buildGrid] at hrow
  | succ n ih =>
    intro l cols hlen row hrow
    simp only [buildGrid, List.mem_cons] at hrow
    rcases hrow with h | h
    · subst h
      have hc : cols ≤ l.length := by
        rw [hlen, Nat.succ_mul]; omega
      simp [List.length_take, Nat.min_eq_left hc]
    · exact ih (l.drop cols) cols (by simp [hlen, Nat.succ_mul]) row h

theorem buildGrid_flatten (rows : Nat) :
    ∀ (l : List Piece) (cols : Nat), l.length = rows * cols →
      (buildGrid l rows cols).flatten = l := by
  induction rows with
  | zero =>
    intro l cols hlen
    simp only [Nat.zero_mul] at hlen
    simp [buildGrid, List.eq_nil_of_length_eq_zero hlen]
  | succ n ih =>
    intro l cols hlen
    simp only [buildGrid, List.flatten_cons]
    rw [ih (l.drop cols) cols (by simp [hlen, Nat.succ_mul]), List.take_append_drop]

theorem getD_buildGrid (rows : Nat) :
    ∀ (l : List Piece) (cols r c : Nat), r < rows → c < cols →
      l.length = rows * cols →
      ((buildGrid l rows cols).getD r []).getD c Piece.Empty
        = l.getD (r * cols + c) Piece.Empty := by
  induction rows with
  | zero => intro l cols r c hr; omega
  | succ n ih =>
    intro l cols r c hr hc hlen
    cases r with
    | zero =>
      have hlt : c < l.length := by
        rw [hlen, Nat.succ_mul]; omega
      simp only [buildGrid, List.getD_cons_zero, Nat.zero_mul, Nat.zero_add]
      rw [List.getD_eq_getElem?_getD, List.getD_eq_getElem?_getD,
        List.getElem?_take, if_pos hc]
    | succ r2 =>
      have hr2 : r2 < n := by omega
      simp only [buildGrid, List.getD_cons_succ]
      rw [ih (l.drop cols) cols r2 c hr2 hc (by simp [hlen, Nat.succ_mul]),
        List.getD_eq_getElem?_getD, List.getD_eq_getElem?_getD, List.getElem?_drop]
      congr 1
      ring_nf

/-! ### Cross-position lemmas -/

theorem crossPosAux_of_not_mem (cols : Nat) :
    ∀ (l : List Piece) (i : Nat) (pos : Nat × Nat), Piece.Cross ∉ l →
      crossPosAux cols l i pos = pos := by
  intro l
  induction l with
  | nil => intro i pos _; rfl
  | cons p rest ih =>
    intro i pos hmem
    simp only [List.mem_cons, not_or] at hmem
    have hpc : ¬ p = Piece.Cross := fun h => hmem.1 h.symm
    simp only [crossPosAux, if_neg hpc]
    exact ih (i + 1) pos hmem.2

theorem crossPosAux_spec (cols : Nat) :
    ∀ (l : List Piece) (i k : Nat) (pos : Nat × Nat),
      l[k]? = some Piece.Cross →
      (∀ j, l[j]? = some Piece.Cross → j = k) →
      crossPosAux cols l i pos = ((i + k) / cols, (i + k) % cols) := by
  intro l
  induction l with
  | nil => intro i k pos hk; simp at hk
  | cons p rest ih =>
    intro i k pos hk huniq
    cases k with
    | zero =>
      simp only [List.getElem?_cons_zero, Option.some.injEq] at hk
      have hnot : Piece.Cross ∉ rest := by
        intro hmem
        obtain ⟨j, hj, hget⟩ := List.getElem_of_mem hmem
        have : (p :: rest)[j + 1]? = some Piece.Cross := by
          simp [List.getElem?_cons_succ, List.getElem?_eq_getElem hj, hget]
        exact Nat.succ_ne_zero j (huniq (j + 1) this)
      simp only [crossPosAux, if_pos hk]
      rw [crossPosAux_of_not_mem cols rest (i + 1) _ hnot, Nat.add_zero]
    | succ k2 =>
      simp only [List.getElem?_cons_succ] at hk
      have hp : p ≠ Piece.Cross := by
        intro h
        have : (p :: rest)[0]? = some Piece.Cross := by simp [h]
        exact Nat.succ_ne_zero k2 (huniq 0 this).symm
      have huniq2 : ∀ j, rest[j]? = some Piece.Cross → j = k2 := by
        intro j hj
        have : (p :: rest)[j + 1]? = some Piece.Cross := by
          simpa [List.getElem?_cons_succ] using hj
        have := huniq (j + 1) this
        omega
      simp only [crossPosAux, if_neg hp]
      rw [ih (i + 1) k2 _ hk huniq2]
      congr 1 <;> congr 1 <;> omega

theorem count_one_unique_idx (a : Piece) :
    ∀ l : List Piece, l.count a = 1 →
      ∃ k : Nat, l[k]? = some a ∧ ∀ j : Nat, l[j]? = some a → j = k := by
  intro l
  induction l with
  | nil => intro h; simp at h
  | cons p rest ih =>
    intro h
    by_cases hp : p = a
    · subst hp
      have hz : rest.count p = 0 := by
        have := List.count_cons_self p rest
        omega
      have hnot : p ∉ rest := by
        intro hmem
        have hpos : 0 < rest.count p := List.count_pos_iff.mpr hmem
        omega
      refine ⟨0, by simp, ?_⟩
      intro j hj
      cases j with
      | zero => rfl
      | succ j2 =>
        simp only [List.getElem?_cons_succ] at hj
        exact absurd (List.getElem?_mem hj) hnot
    · have hcnt : rest.count a = 1 := by
        rw [List.count_cons] at h
        simpa [hp] using h
      obtain ⟨k, hk, huniq⟩ := ih hcnt
      refine ⟨k + 1, by simpa [List.getElem?_cons_succ] using hk, ?_⟩
      intro j hj
      cases j with
      | zero =>
        simp only [List.getElem?_cons_zero, Option.some.injEq] at hj
        exact absurd hj hp
      | succ j2 =>
        simp only [List.getElem?_cons_succ] at hj
        exact congrArg (· + 1) (huniq j2 hj)

/-! ### Board construction lemmas -/

theorem Board.new_eq_some {size : BoardSize} {l : List Piece} {b : Board}
    (h : Board.new size l = some b) :
    l.length = size.dimensions.1 * size.dimensions.2 ∧
    b = { size := size
          pieces := buildGrid l size.dimensions.1 size.dimensions.2
          cross_position := crossPosAux size.dimensions.2 l 0 (0, 0) } := by
  unfold Board.new at h
  by_cases hlen : l.length = size.dimensions.1 * size.dimensions.2
  · simp only [hlen, if_pos, Option.some.injEq] at h
    exact ⟨hlen, h.symm⟩
  · simp only [hlen, if_neg, if_false] at h
    exact absurd h (by simp)

theorem Board.new_isSome {size : BoardSize} {l : List Piece}
    (hlen : l.length = size.dimensions.1 * size.dimensions.2) :
    Board.new size l
      = some { size := size
               pieces := buildGrid l size.dimensions.1 size.dimensions.2
               cross_position := crossPosAux size.dimensions.2 l 0 (0, 0) } := by
  unfold Board.new
  simp [hlen]

theorem encode_lt {r c rows cols : Nat} (hr : r < rows) (hc : c < cols) :
    r * cols + c < rows * cols := by
  calc r * cols + c < r * cols + cols := by omega
    _ = (r + 1) * cols := by ring
    _ ≤ rows * cols := Nat.mul_le_mul_right cols hr

theorem encode_div {r c cols : Nat} (hc : c < cols) : (r * cols + c) / cols = r := by
  have hcols : 0 < cols := by omega
  rw [Nat.add_comm, Nat.add_mul_div_right _ _ hcols, Nat.div_eq_of_lt hc, Nat.zero_add]

theorem encode_mod {r c cols : Nat} (hc : c < cols) : (r * cols + c) % cols = c := by
  rw [Nat.add_comm, Nat.add_mul_mod_self_right, Nat.mod_eq_of_lt hc]

theorem Board.new_invariant {size : BoardSize} {l : List Piece} {b : Board}
    (hcount : l.count Piece.Cross = 1) (h : Board.new size l = some b) :
    b.wellFormed ∧ b.oneCrossAt := by
  obtain ⟨hlen, hb⟩ := Board.new_eq_some h
  obtain ⟨k, hk, huniq⟩ := count_one_unique_idx Piece.Cross l hcount
  have hrowspos : 0 < size.dimensions.1 := (dimensions_pos size).1
  have hcolspos : 0 < size.dimensions.2 := (dimensions_pos size).2
  have hklt : k < l.length := by
    by_contra hge
    rw [List.getElem?_eq_none (by omega)] at hk
    exact Option.noConfusion hk
  have hcp : crossPosAux size.dimensions.2 l 0 (0, 0)
      = (k / size.dimensions.2, k % size.dimensions.2) := by
    have := crossPosAux_spec size.dimensions.2 l 0 k (0, 0) hk huniq
    simpa using this
  subst hb
  have hcross : Board.cross_position
      { size := size
        pieces := buildGrid l size.dimensions.1 size.dimensions.2
        cross_position := crossPosAux size.dimensions.2 l 0 (0, 0) }
      = (k / size.dimensions.2, k % size.dimensions.2) := hcp
  have hwf : Board.wellFormed
      { size := size
        pieces := buildGrid l size.dimensions.1 size.dimensions.2
        cross_position := crossPosAux size.dimensions.2 l 0 (0, 0) } := by
    refine ⟨buildGrid_length _ _ _, buildGrid_row_length _ _ _ hlen, ?_, ?_⟩
    · show (crossPosAux size.dimensions.2 l 0 (0, 0)).1 < size.dimensions.1
      rw [hcp]
      exact (Nat.div_lt_iff_lt_mul hcolspos).mpr (by omega)
    · show (crossPosAux size.dimensions.2 l 0 (0, 0)).2 < size.dimensions.2
      rw [hcp]
      exact Nat.mod_lt _ hcolspos
  refine ⟨hwf, ?_⟩
  intro r hr c hc
  have hr2 : r < size.dimensions.1 := hr
  have hc2 : c < size.dimensions.2 := hc
  have hcell : Board.getCell
      { size := size
        pieces := buildGrid l size.dimensions.1 size.dimensions.2
        cross_position := crossPosAux size.dimensions.2 l 0 (0, 0) } r c
      = l.getD (r * size.dimensions.2 + c) Piece.Empty :=
    getD_buildGrid _ _ _ _ _ hr2 hc2 hlen
  have hn : r * size.dimensions.2 + c < l.length := by
    rw [hlen]; exact encode_lt hr2 hc2
  obtain ⟨a, hsome⟩ : ∃ a, l[r * size.dimensions.2 + c]? = some a :=
    ⟨_, List.getElem?_eq_getElem hn⟩
  have hget : Board.getCell
      { size := size
        pieces := buildGrid l size.dimensions.1 size.dimensions.2
        cross_position := crossPosAux size.dimensions.2 l 0 (0, 0) } r c
      = a := by
    rw [hcell, List.getD_eq_getElem?_getD, hsome]
    rfl
  rw [hget, hcross]
  constructor
  · intro hcr
    have hkeq := huniq _ (by rw [hsome, hcr])
    rw [← hkeq, encode_div hc2, encode_mod hc2]
  · intro hpos
    have hr2 : r = k / size.dimensions.2 := congrArg Prod.fst hpos
    have hc2 : c = k % size.dimensions.2 := congrArg Prod.snd hpos
    have hkeq : r * size.dimensions.2 + c = k := by
      rw [hr2, hc2, Nat.mul_comm, Nat.div_add_mod]
    have : l[r * size.dimensions.2 + c]? = some Piece.Cross := by rw [hkeq]; exact hk
    rw [hsome] at this
    exact Option.some.inj this

/-! ### Tile multiset lemmas -/

theorem piecesSet_length (size : BoardSize) :
    (piecesSet size).length = size.dimensions.1 * size.dimensions.2 := by
  cases size <;> decide

theorem piecesSet_count_cross (size : BoardSize) :
    (piecesSet size).count Piece.Cross = 1 := by
  cases size <;> decide

theorem piecesSet_no_empty (size : BoardSize) :
    Piece.Empty ∉ piecesSet size := by
  cases size <;> decide

/-! ### Valid-move lemmas -/

theorem mem_valid_moves_h {b : Board} {player : Player}
    (hdir : player.direction = MoveDirection.Horizontal) (r2 c2 : Nat) :
    (r2, c2) ∈ b.get_valid_moves player ↔
      r2 = b.cross_position.1 ∧ c2 < b.size.dimensions.2 ∧
      c2 ≠ b.cross_position.2 ∧ b.getCell b.cross_position.1 c2 ≠ Piece.Empty := by
  unfold Board.get_valid_moves
  rw [hdir]
  simp only [List.mem_map, List.mem_filter, List.mem_range, Bool.and_eq_true,
    decide_eq_true_eq, Prod.mk.injEq]
  constructor
  · rintro ⟨c, ⟨hc, hne, hcell⟩, hr, rfl⟩
    exact ⟨hr.symm, hc, hne, hcell⟩
  · rintro ⟨hr, hc, hne, hcell⟩
    exact ⟨c2, ⟨hc, hne, hcell⟩, hr.symm, rfl⟩

theorem mem_valid_moves_v {b : Board} {player : Player}
    (hdir : player.direction = MoveDirection.Vertical) (r2 c2 : Nat) :
    (r2, c2) ∈ b.get_valid_moves player ↔
      c2 = b.cross_position.2 ∧ r2 < b.size.dimensions.1 ∧
      r2 ≠ b.cross_position.1 ∧ b.getCell r2 b.cross_position.2 ≠ Piece.Empty := by
  unfold Board.get_valid_moves
  rw [hdir]
  simp only [List.mem_map, List.mem_filter, List.mem_range, Bool.and_eq_true,
    decide_eq_true_eq, Prod.mk.injEq]
  constructor
  · rintro ⟨r, ⟨hr, hne, hcell⟩, rfl, hcol⟩
    exact ⟨hcol.symm, hr, hne, hcell⟩
  · rintro ⟨hcol, hr, hne, hcell⟩
    exact ⟨r2, ⟨hr, hne, hcell⟩, rfl, hcol.symm⟩

theorem getCell_ne_empty_bounds {b : Board} {r c : Nat}
    (h : b.getCell r c ≠ Piece.Empty) :
    r < b.pieces.length ∧ c < (b.pieces.getD r []).length := by
  unfold Board.getCell at h
  by_cases hr : r < b.pieces.length
  · refine ⟨hr, ?_⟩
    by_contra hge
    have hnone : (b.pieces.getD r [])[c]? = none := List.getElem?_eq_none (by omega)
    rw [List.getD_eq_getElem?_getD (b.pieces.getD r []) c, hnone] at h
    exact h rfl
  · exfalso
    have hnone : b.pieces[r]? = none := List.getElem?_eq_none (by omega)
    rw [List.getD_eq_getElem?_getD b.pieces r, hnone] at h
    exact h rfl

theorem row_length {b : Board} (hwf : b.wellFormed) {r : Nat}
    (hr : r < b.size.dimensions.1) :
    (b.pieces.getD r []).length = b.size.dimensions.2 := by
  have hrlen : r < b.pieces.length := by rw [hwf.1]; exact hr
  obtain ⟨row, hrow⟩ : ∃ row, b.pieces[r]? = some row :=
    ⟨_, List.getElem?_eq_getElem hrlen⟩
  have hgetd : b.pieces.getD r [] = row := by
    rw [List.getD_eq_getElem?_getD, hrow]
    rfl
  rw [hgetd]
  exact hwf.2.1 _ (List.getElem?_mem hrow)

theorem valid_target_facts {b : Board} {player : Player} {target : Nat × Nat}
    (hwf : b.wellFormed) (h : target ∈ b.get_valid_moves player) :
    target ≠ b.cross_position ∧ b.getCell target.1 target.2 ≠ Piece.Empty ∧
    target.1 < b.size.dimensions.1 ∧ target.2 < b.size.dimensions.2 := by
  obtain ⟨r2, c2⟩ := target
  cases hdir : player.direction with
  | Horizontal =>
    obtain ⟨hr, hc, hne, hcell⟩ := (mem_valid_moves_h hdir r2 c2).mp h
    subst hr
    refine ⟨?_, hcell, hwf.2.2.1, hc⟩
    intro heq
    exact hne (congrArg Prod.snd heq)
  | Vertical =>
    obtain ⟨hc, hr, hne, hcell⟩ := (mem_valid_moves_v hdir r2 c2).mp h
    subst hc
    refine ⟨?_, hcell, hr, hwf.2.2.2⟩
    intro heq
    exact hne (congrArg Prod.fst heq)

/-! ### Cell update lemmas -/

theorem length_setCell (g : List (List Piece)) (r c : Nat) (p : Piece) :
    (setCell g r c p).length = g.length := by
  simp [setCell]

theorem getD_setCell_other_row {g : List (List Piece)} {r : Nat} (c : Nat) (p : Piece)
    {r2 : Nat} (h : r2 ≠ r) :
    (setCell g r c p).getD r2 [] = g.getD r2 [] := by
  rw [List.getD_eq_getElem?_getD, List.getD_eq_getElem?_getD]
  unfold setCell
  rw [List.getElem?_set_ne (fun heq => h heq.symm)]

theorem getCell_setCell_same {g : List (List Piece)} {r c : Nat} (p : Piece)
    (hr : r < g.length) (hc : c < (g.getD r []).length) :
    ((setCell g r c p).getD r []).getD c Piece.Empty = p := by
  have hrow : (setCell g r c p).getD r [] = (g.getD r []).set c p := by
    rw [List.getD_eq_getElem?_getD]
    unfold setCell
    rw [List.getElem?_set_self hr]
    rfl
  rw [hrow, List.getD_eq_getElem?_getD, List.getElem?_set_self hc]
  rfl

theorem getCell_setCell_other {g : List (List Piece)} {r c : Nat} (p : Piece)
    {r2 c2 : Nat} (h : (r2, c2) ≠ (r, c)) :
    ((setCell g r c p).getD r2 []).getD c2 Piece.Empty
      = (g.getD r2 []).getD c2 Piece.Empty := by
  by_cases hr : r2 = r
  · subst hr
    have hc : c2 ≠ c := fun heq => h (by rw [heq])
    by_cases hrin : r2 < g.length
    · have hrow : (setCell g r2 c p).getD r2 [] = (g.getD r2 []).set c p := by
        rw [List.getD_eq_getElem?_getD]
        unfold setCell
        rw [List.getElem?_set_self hrin]
        rfl
      rw [hrow, List.getD_eq_getElem?_getD,
        List.getElem?_set_ne (fun heq => hc heq.symm), ← List.getD_eq_getElem?_getD]
    · have : setCell g r2 c p = g := by
        unfold setCell
        exact List.set_eq_of_length_le (by omega)
      rw [this]
  · rw [getD_setCell_other_row c p hr]

/-! ### Move execution lemmas -/

theorem make_move_of_valid {b : Board} {player : Player} {target : Nat × Nat}
    (h : target ∈ b.get_valid_moves player) :
    b.make_move player target =
      ({ b with
          pieces := setCell
            (setCell b.pieces b.cross_position.1 b.cross_position.2 Piece.Empty)
            target.1 target.2 Piece.Cross
          cross_position := target },
       Except.ok (b.getCell target.1 target.2)) := by
  unfold Board.make_move
  rw [if_pos h]

theorem make_move_of_invalid {b : Board} {player : Player} {target : Nat × Nat}
    (h : target ∉ b.get_valid_moves player) :
    b.make_move player target = (b, Except.error (invalidMoveMsg target)) := by
  unfold Board.make_move
  rw [if_neg h]

theorem make_move_cells {b : Board} {player : Player} {target : Nat × Nat}
    (hwf : b.wellFormed) (h : target ∈ b.get_valid_moves player) :
    ((b.make_move player target).1).size = b.size ∧
    ((b.make_move player target).1).cross_position = target ∧
    ((b.make_move player target).1).wellFormed ∧
    ∀ r c, ((b.make_move player target).1).getCell r c =
      if (r, c) = target then Piece.Cross
      else if (r, c) = b.cross_position then Piece.Empty
      else b.getCell r c := by
  obtain ⟨hne, hcell, htr, htc⟩ := valid_target_facts hwf h
  rw [make_move_of_valid h]
  have hcrossr : b.cross_position.1 < b.pieces.length := by
    rw [hwf.1]; exact hwf.2.2.1
  have hcrossc : b.cross_position.2 < (b.pieces.getD b.cross_position.1 []).length := by
    rw [row_length hwf hwf.2.2.1]; exact hwf.2.2.2
  have htr2 : target.1 < b.pieces.length := by rw [hwf.1]; exact htr
  have htc2 : target.2 < (b.pieces.getD target.1 []).length := by
    rw [row_length hwf htr]; exact htc
  have hg1len : (setCell b.pieces b.cross_position.1 b.cross_position.2 Piece.Empty).length
      = b.pieces.length := length_setCell _ _ _ _
  have hcells : ∀ r c,
      ((setCell (setCell b.pieces b.cross_position.1 b.cross_position.2 Piece.Empty)
        target.1 target.2 Piece.Cross).getD r []).getD c Piece.Empty =
      if (r, c) = target then Piece.Cross
      else if (r, c) = b.cross_position then Piece.Empty
      else b.getCell r c := by
    intro r c
    by_cases h1 : (r, c) = target
    · have hr : r = target.1 := congrArg Prod.fst h1
      have hc : c = target.2 := congrArg Prod.snd h1
      subst hr; subst hc
      rw [if_pos rfl]
      apply getCell_setCell_same
      · rw [hg1len]; exact htr2
      · by_cases hrow : target.1 = b.cross_position.1
        · have : (setCell b.pieces b.cross_position.1 b.cross_position.2
              Piece.Empty).getD target.1 []
              = (b.pieces.getD target.1 []).set b.cross_position.2 Piece.Empty := by
            rw [List.getD_eq_getElem?_getD]
            unfold setCell
            rw [hrow, List.getElem?_set_self hcrossr, ← hrow]
            rfl
          rw [this, List.length_set]
          exact htc2
        · rw [getD_setCell_other_row _ _ hrow]
          exact htc2
    · rw [if_neg h1, getCell_setCell_other _ h1]
      by_cases h2 : (r, c) = b.cross_position
      · have hr : r = b.cross_position.1 := congrArg Prod.fst h2
        have hc : c = b.cross_position.2 := congrArg Prod.snd h2
        subst hr; subst hc
        rw [if_pos rfl]
        exact getCell_setCell_same _ hcrossr hcrossc
      · rw [if_neg h2, getCell_setCell_other _ h2]
        rfl
  have hmemset : ∀ (g : List (List Piece)) (r c : Nat) (p : Piece) (q : List Piece),
      q ∈ setCell g r c p → q ∈ g ∨ q = (g.getD r []).set c p := by
    intro g r c p q hq
    unfold setCell at hq
    exact List.mem_or_eq_of_mem_set hq
  have hg1row : ∀ r2, r2 < b.size.dimensions.1 →
      ((setCell b.pieces b.cross_position.1 b.cross_position.2 Piece.Empty).getD
        r2 []).length = b.size.dimensions.2 := by
    intro r2 hr2
    by_cases hr : r2 = b.cross_position.1
    · have : (setCell b.pieces b.cross_position.1 b.cross_position.2 Piece.Empty).getD r2 []
          = (b.pieces.getD b.cross_position.1 []).set b.cross_position.2 Piece.Empty := by
        rw [hr, List.getD_eq_getElem?_getD]
        unfold setCell
        rw [List.getElem?_set_self (by rw [hwf.1]; exact hwf.2.2.1)]
        rfl
      rw [this, List.length_set]
      exact row_length hwf hwf.2.2.1
    · rw [getD_setCell_other_row _ _ hr]
      exact row_length hwf hr2
  refine ⟨rfl, rfl, ?_, hcells⟩
  refine ⟨?_, ?_, htr, htc⟩
  · show (setCell (setCell b.pieces _ _ _) _ _ _).length = b.size.dimensions.1
    rw [length_setCell, length_setCell, hwf.1]
  · intro row hrow
    show row.length = b.size.dimensions.2
    rcases hmemset _ _ _ _ _ hrow with hmem | heq
    · rcases hmemset _ _ _ _ _ hmem with hmem3 | heq3
      · exact hwf.2.1 _ hmem3
      · rw [heq3, List.length_set]
        exact row_length hwf hwf.2.2.1
    · rw [heq, List.length_set]
      exact hg1row _ htr

theorem make_move_result_of_valid {b : Board} {player : Player} {target : Nat × Nat}
    (h : target ∈ b.get_valid_moves player) :
    (b.make_move player target).2 = Except.ok (b.getCell target.1 target.2) := by
  rw [make_move_of_valid h]

theorem make_move_invariant {b : Board} {player : Player} {target : Nat × Nat}
    (hinv : b.invariant) (h : target ∈ b.get_valid_moves player) :
    ((b.make_move player target).1).invariant := by
  obtain ⟨hwf, hone⟩ := hinv
  obtain ⟨hsize, hcross, hwf2, hcells⟩ := make_move_cells hwf h
  obtain ⟨hne, hcell, htr, htc⟩ := valid_target_facts hwf h
  refine ⟨hwf2, ?_⟩
  intro r hr c hc
  rw [hsize] at hr hc
  rw [hcells r c, hcross]
  by_cases h1 : (r, c) = target
  · simp [h1]
  · rw [if_neg h1]
    by_cases h2 : (r, c) = b.cross_position
    · rw [if_pos h2]
      constructor
      · intro hemp; exact absurd hemp (by simp)
      · intro heq; exact absurd heq h1
    · rw [if_neg h2]
      constructor
      · intro hcr
        exact absurd ((hone r hr c hc).mp hcr) h2
      · intro heq; exact absurd heq h1

theorem make_move_snd_valid_iff {b : Board} {player : Player} {target : Nat × Nat}
    {b2 : Board} {piece : Piece}
    (h : b.make_move player target = (b2, Except.ok piece)) :
    target ∈ b.get_valid_moves player := by
  by_contra hnv
  rw [make_move_of_invalid hnv] at h
  have := congrArg Prod.snd h
  simp at this

theorem reachable_invariant {b : Board} (h : Board.Reachable b) : b.invariant := by
  induction h with
  | init size l b hperm hnew =>
    refine Board.new_invariant ?_ hnew
    rw [hperm.count_eq]
    exact piecesSet_count_cross size
  | step b b2 player target piece hb hmove ih =>
    have hvalid := make_move_snd_valid_iff hmove
    have := make_move_invariant ih hvalid
    rwa [hmove] at this

/-- On a board with a unique marker, every valid move target holds a `Number`
piece: the target cell is non-empty by construction and cannot be the cross
because the unique cross sits at `cross_position`, which is never a valid
target. -/
theorem valid_target_number {b : Board} {player : Player} {target : Nat × Nat}
    (hinv : b.invariant) (h : target ∈ b.get_valid_moves player) :
    ∃ v : Int, b.getCell target.1 target.2 = Piece.Number v := by
  obtain ⟨hwf, hone⟩ := hinv
  obtain ⟨hne, hcell, htr, htc⟩ := valid_target_facts hwf h
  cases hc : b.getCell target.1 target.2 with
  | Number v => exact ⟨v, rfl⟩
  | Cross =>
    exfalso
    have := (hone target.1 htr target.2 htc).mp hc
    exact hne (by rw [← this])
  | Empty => exact absurd hc hcell

/-! ### Winner-scan lemmas -/

theorem winnerScan_all_lt (score : Player → Int) :
    ∀ (ps : List Player) (h : Int) (w : Option Player) (t : Bool),
      (∀ p ∈ ps, score p < h) →
      winnerScan score ps h w t = if t then none else w := by
  intro ps
  induction ps with
  | nil => intro h w t _; rfl
  | cons hd rest ih =>
    intro h w t hall
    have hlt : score hd < h := hall hd (by simp)
    simp only [winnerScan, if_neg (by omega : ¬ score hd > h),
      if_neg (by omega : ¬ score hd = h)]
    exact ih h w t (fun p hp => hall p (by simp [hp]))

theorem winnerScan_tie (score : Player → Int) :
    ∀ (ps : List Player) (h : Int) (w : Option Player),
      (∀ p ∈ ps, score p ≤ h) →
      winnerScan score ps h w true = none := by
  intro ps
  induction ps with
  | nil => intro h w _; rfl
  | cons hd rest ih =>
    intro h w hall
    have hle : score hd ≤ h := hall hd (by simp)
    simp only [winnerScan, if_neg (by omega : ¬ score hd > h)]
    by_cases heq : score hd = h
    · rw [if_pos heq]
      exact ih h w (fun p hp => hall p (by simp [hp]))
    · rw [if_neg heq]
      exact ih h w (fun p hp => hall p (by simp [hp]))

theorem winnerScan_le_mem (score : Player → Int) :
    ∀ (ps : List Player) (h : Int) (w : Option Player) (t : Bool),
      (∀ p ∈ ps, score p ≤ h) → (∃ p ∈ ps, score p = h) →
      winnerScan score ps h w t = none := by
  intro ps
  induction ps with
  | nil => intro h w t _ hex; simp at hex
  | cons hd rest ih =>
    intro h w t hall hex
    have hle : score hd ≤ h := hall hd (by simp)
    simp only [winnerScan, if_neg (by omega : ¬ score hd > h)]
    by_cases heq : score hd = h
    · rw [if_pos heq]
      exact winnerScan_tie score rest h w (fun p hp => hall p (by simp [hp]))
    · rw [if_neg heq]
      obtain ⟨p0, hp0, hsc⟩ := hex
      have hp0r : p0 ∈ rest := by
        rcases List.mem_cons.mp hp0 with hh | hh
        · exact absurd (hh ▸ hsc) heq
        · exact hh
      exact ih h w t (fun p hp => hall p (by simp [hp])) ⟨p0, hp0r, hsc⟩

theorem winnerScan_strict (score : Player → Int) :
    ∀ (ps : List Player) (h : Int) (w : Option Player) (t : Bool) (p : Player),
      ps.Nodup → p ∈ ps → h < score p →
      (∀ q ∈ ps, q ≠ p → score q < score p) →
      winnerScan score ps h w t = some p := by
  intro ps
  induction ps with
  | nil => intro h w t p _ hmem; simp at hmem
  | cons hd rest ih =>
    intro h w t p hnd hmem hh hall
    by_cases hhd : hd = p
    · subst hhd
      simp only [winnerScan, if_pos hh]
      have hnot : hd ∉ rest := (List.nodup_cons.mp hnd).1
      have hlt : ∀ q ∈ rest, score q < score hd := by
        intro q hq
        exact hall q (by simp [hq]) (fun heq => hnot (heq ▸ hq))
      rw [winnerScan_all_lt score rest (score hd) (some hd) false hlt]
      rfl
    · have hpr : p ∈ rest := by
        rcases List.mem_cons.mp hmem with hh2 | hh2
        · exact absurd hh2.symm hhd
        · exact hh2
      have hhdlt : score hd < score p := hall hd (by simp) hhd
      have hallr : ∀ q ∈ rest, q ≠ p → score q < score p := by
        intro q hq hqp
        exact hall q (by simp [hq]) hqp
      have hndr : rest.Nodup := (List.nodup_cons.mp hnd).2
      by_cases h1 : score hd > h
      · simp only [winnerScan, if_pos h1]
        exact ih (score hd) (some hd) false p hndr hpr hhdlt hallr
      · simp only [winnerScan, if_neg h1]
        by_cases h2 : score hd = h
        · rw [if_pos h2]
          exact ih h w true p hndr hpr hh hallr
        · rw [if_neg h2]
          exact ih h w t p hndr hpr hh hallr

theorem winnerScan_two_max (score : Player → Int) :
    ∀ (ps : List Player) (h : Int) (w : Option Player) (t : Bool) (p q : Player),
      p ∈ ps → q ∈ ps → p ≠ q → score p = score q →
      (∀ r ∈ ps, score r ≤ score p) → h < score p →
      winnerScan score ps h w t = none := by
  intro ps
  induction ps with
  | nil => intro h w t p q hmem; simp at hmem
  | cons hd rest ih =>
    intro h w t p q hp hq hpq hscore hall hh
    have hhdle : score hd ≤ score p := hall hd (by simp)
    by_cases h1 : score hd > h
    · simp only [winnerScan, if_pos h1]
      by_cases hmax : score hd = score p
      · have hexr : ∃ r ∈ rest, score r = score hd := by
          by_cases hhdp : hd = p
          · refine ⟨q, ?_, by omega⟩
            rcases List.mem_cons.mp hq with hh2 | hh2
            · exact absurd (hhdp ▸ hh2.symm) hpq
            · exact hh2
          · refine ⟨p, ?_, by omega⟩
            rcases List.mem_cons.mp hp with hh2 | hh2
            · exact absurd hh2.symm hhdp
            · exact hh2
        refine winnerScan_le_mem score rest (score hd) (some hd) false ?_ hexr
        intro r hr
        have := hall r (by simp [hr])
        omega
      · have hhdlt : score hd < score p := by omega
        have hpr : p ∈ rest := by
          rcases List.mem_cons.mp hp with hh2 | hh2
          · exact absurd (congrArg score hh2.symm) (by omega)
          · exact hh2
        have hqr : q ∈ rest := by
          rcases List.mem_cons.mp hq with hh2 | hh2
          · exact absurd (congrArg score hh2.symm) (by omega)
          · exact hh2
        exact ih (score hd) (some hd) false p q hpr hqr hpq hscore
          (fun r hr => hall r (by simp [hr])) hhdlt
    · have hhdlt : score hd < score p := by omega
      have hpr : p ∈ rest := by
        rcases List.mem_cons.mp hp with hh2 | hh2
        · exact absurd (congrArg score hh2.symm) (by omega)
        · exact hh2
      have hqr : q ∈ rest := by
        rcases List.mem_cons.mp hq with hh2 | hh2
        · exact absurd (congrArg score hh2.symm) (by omega)
        · exact hh2
      have hallr : ∀ r ∈ rest, score r ≤ score p := fun r hr => hall r (by simp [hr])
      simp only [winnerScan, if_neg h1]
      by_cases h2 : score hd = h
      · rw [if_pos h2]
        exact ih h w true p q hpr hqr hpq hscore hallr hh
      · rw [if_neg h2]
        exact ih h w t p q hpr hqr hpq hscore hallr hh

theorem exists_score_max (score : Player → Int) :
    ∀ (ps : List Player), ps ≠ [] → ∃ m ∈ ps, ∀ q ∈ ps, score q ≤ score m := by
  intro ps
  induction ps with
  | nil => intro h; exact absurd rfl h
  | cons hd rest ih =>
    intro _
    by_cases hrest : rest = []
    · subst hrest
      exact ⟨hd, by simp, by simp⟩
    · obtain ⟨m, hm, hmax⟩ := ih hrest
      by_cases hle : score m ≤ score hd
      · refine ⟨hd, by simp, ?_⟩
        intro q hq
        rcases List.mem_cons.mp hq with hh | hh
        · rw [hh]
        · exact le_trans (hmax q hh) hle
      · refine ⟨m, by simp [hm], ?_⟩
        intro q hq
        rcases List.mem_cons.mp hq with hh | hh
        · rw [hh]; omega
        · exact hmax q hh

/-- The winner scan started from `i32::MIN`, `None`, no tie — as both winner
functions of game.rs call it — returns `some p` exactly when `p` is the
strictly highest scorer, provided the player list has no duplicates and at
least two entries and every score is representable in `i32`. -/
theorem winnerScan_spec (score : Player → Int) (ps : List Player)
    (hnd : ps.Nodup) (hlen : 2 ≤ ps.length)
    (hmin : ∀ p ∈ ps, i32min ≤ score p) (p : Player) :
    winnerScan score ps i32min none false = some p ↔
      (p ∈ ps ∧ ∀ q ∈ ps, q ≠ p → score q < score p) := by
  have hne : ps ≠ [] := by
    intro h; rw [h] at hlen; simp at hlen
  have hother : ∀ p0 ∈ ps, ∃ q ∈ ps, q ≠ p0 := by
    intro p0 hp0
    match ps, hlen with
    | a :: b :: rest, _ =>
      by_cases ha : a = p0
      · refine ⟨b, by simp, ?_⟩
        intro hb
        have : a ≠ b := by
          have := List.nodup_cons.mp hnd
          simp at this
          exact fun h => this.1.1 h
        exact this (ha.trans hb.symm)
      · exact ⟨a, by simp, ha⟩
  by_cases hsm : ∃ p0 ∈ ps, ∀ q ∈ ps, q ≠ p0 → score q < score p0
  · obtain ⟨p0, hp0, hstrict⟩ := hsm
    obtain ⟨q0, hq0, hq0ne⟩ := hother p0 hp0
    have hgt : i32min < score p0 :=
      lt_of_le_of_lt (hmin q0 hq0) (hstrict q0 hq0 hq0ne)
    rw [winnerScan_strict score ps i32min none false p0 hnd hp0 hgt hstrict]
    constructor
    · intro hsome
      have : p0 = p := Option.some.inj hsome
      subst this
      exact ⟨hp0, hstrict⟩
    · intro ⟨hp, hstrict2⟩
      by_cases hpp : p = p0
      · rw [hpp]
      · exact absurd (hstrict2 p0 hp0 (fun h => hpp h.symm))
          (by have := hstrict p hp hpp; omega)
  · have hnone : winnerScan score ps i32min none false = none := by
      obtain ⟨m, hm, hmax⟩ := exists_score_max score ps hne
      by_cases hgt : i32min < score m
      · have : ¬ ∀ q ∈ ps, q ≠ m → score q < score m := by
          intro hstrict
          exact hsm ⟨m, hm, hstrict⟩
        push_neg at this
        obtain ⟨q, hq, hqne, hqge⟩ := this
        exact winnerScan_two_max score ps i32min none false m q hm hq
          (fun h => hqne h.symm) (by have := hmax q hq; omega) hmax hgt
      · have hmeq : score m = i32min := by
          have := hmin m hm; omega
        refine winnerScan_le_mem score ps i32min none false ?_ ⟨m, hm, hmeq⟩
        intro r hr
        have := hmax r hr
        omega
    rw [hnone]
    constructor
    · intro h; exact absurd h (by simp)
    · intro ⟨hp, hstrict⟩
      exact absurd ⟨p, hp, hstrict⟩ hsm

/-! ### Session-level equation lemmas -/

theorem process_move_number {s : GameSession} {target : Nat × Nat} {b2 : Board} {v : Int}
    (h : s.board.make_move s.current_player target = (b2, Except.ok (Piece.Number v))) :
    s.process_move target =
      ({ s with board := b2
                current_player := s.current_player.next_for_mode s.game_mode
                scores := fun p => if p = s.current_player
                  then (s.scores s.current_player).add_piece (Piece.Number v)
                  else s.scores p },
       Except.ok ()) := by
  unfold GameSession.process_move
  rw [h]

theorem process_move_cross {s : GameSession} {target : Nat × Nat} {b2 : Board}
    (h : s.board.make_move s.current_player target = (b2, Except.ok Piece.Cross)) :
    s.process_move target =
      ({ s with board := b2
                current_player := s.current_player.next_for_mode s.game_mode },
       Except.ok ()) := by
  unfold GameSession.process_move
  rw [h]

theorem process_move_empty {s : GameSession} {target : Nat × Nat} {b2 : Board}
    (h : s.board.make_move s.current_player target = (b2, Except.ok Piece.Empty)) :
    s.process_move target =
      ({ s with board := b2
                current_player := s.current_player.next_for_mode s.game_mode },
       Except.ok ()) := by
  unfold GameSession.process_move
  rw [h]

theorem process_move_of_invalid {s : GameSession} {target : Nat × Nat}
    (h : target ∉ s.board.get_valid_moves s.current_player) :
    s.process_move target = (s, Except.error (invalidMoveMsg target)) := by
  unfold GameSession.process_move
  rw [make_move_of_invalid h]

/-! ### Pointwise update of folded score maps -/

theorem foldl_pointwise_update {α : Type} (F : Player → α → α) :
    ∀ (ps : List Player) (g : Player → α) (p : Player), ps.Nodup →
      (ps.foldl (fun g2 q => fun x => if x = q then F q (g2 q) else g2 x) g) p
        = if p ∈ ps then F p (g p) else g p := by
  intro ps
  induction ps with
  | nil => intro g p _; simp
  | cons q rest ih =>
    intro g p hnd
    simp only [List.foldl_cons]
    rw [ih _ p (List.nodup_cons.mp hnd).2]
    by_cases hpq : p = q
    · subst hpq
      have hnot : p ∉ rest := (List.nodup_cons.mp hnd).1
      rw [if_neg hnot, if_pos rfl, if_pos (by simp)]
    · simp only [if_neg hpq]
      by_cases hpr : p ∈ rest
      · rw [if_pos hpr, if_pos (by simp [hpr])]
      · rw [if_neg hpr, if_neg (by simp [hpr, hpq])]

/-! ### Claim theorems -/

/-- C2: on a well-formed board, `get_valid_moves(player)` returns exactly the
coordinates of the cells that share the marker row (horizontal-axis player)
or column (vertical-axis player), are not the cell of the marker itself and are not
`Empty`, in ascending index order along the scanned axis.  Purity and
determinism hold by construction: the embedding is a function of the board
state and player only, matching the `&self` read in the source with no randomness. -/
theorem get_valid_moves_spec (b : Board) (player : Player) (hwf : b.wellFormed) :
    (∀ rc : Nat × Nat, rc ∈ b.get_valid_moves player ↔
      (rc ≠ b.cross_position ∧ b.getCell rc.1 rc.2 ≠ Piece.Empty ∧
        match player.direction with
        | MoveDirection.Horizontal =>
            rc.1 = b.cross_position.1 ∧ rc.2 < b.size.dimensions.2
        | MoveDirection.Vertical =>
            rc.2 = b.cross_position.2 ∧ rc.1 < b.size.dimensions.1)) ∧
    List.Pairwise (fun a c : Nat × Nat =>
      match player.direction with
      | MoveDirection.Horizontal => a.2 < c.2
      | MoveDirection.Vertical => a.1 < c.1) (b.get_valid_moves player) := by
  constructor
  · intro rc
    obtain ⟨r2, c2⟩ := rc
    cases hdir : player.direction with
    | Horizontal =>
      rw [mem_valid_moves_h hdir r2 c2]
      simp only
      constructor
      · rintro ⟨hr, hc, hne, hcell⟩
        refine ⟨?_, by rwa [hr], hr, hc⟩
        intro heq
        exact hne (congrArg Prod.snd heq)
      · rintro ⟨hnep, hcell, hr, hc⟩
        refine ⟨hr, hc, ?_, by rwa [hr] at hcell⟩
        intro heq
        exact hnep (Prod.ext_iff.mpr ⟨hr, heq⟩)
    | Vertical =>
      rw [mem_valid_moves_v hdir r2 c2]
      simp only
      constructor
      · rintro ⟨hc, hr, hne, hcell⟩
        refine ⟨?_, by rwa [hc], hc, hr⟩
        intro heq
        exact hne (congrArg Prod.fst heq)
      · rintro ⟨hnep, hcell, hc, hr⟩
        refine ⟨hc, hr, ?_, by rwa [hc] at hcell⟩
        intro heq
        exact hnep (Prod.ext_iff.mpr ⟨heq, hc⟩)
  · unfold Board.get_valid_moves
    cases hdir : player.direction with
    | Horizontal =>
      simp only
      rw [List.pairwise_map]
      exact (List.pairwise_lt_range _).filter _
    | Vertical =>
      simp only
      rw [List.pairwise_map]
      exact (List.pairwise_lt_range _).filter _

/-- Witness for C2 at the concrete test board and horizontal player. -/
theorem get_valid_moves_spec_witness :
    testBoard.wellFormed ∧
    ((1, 3) ∈ testBoard.get_valid_moves Player.First ↔
      ((1, 3) ≠ testBoard.cross_position ∧
        testBoard.getCell 1 3 ≠ Piece.Empty ∧
        (1 = testBoard.cross_position.1 ∧ 3 < testBoard.size.dimensions.2))) :=
  ⟨by decide, (get_valid_moves_spec testBoard Player.First (by decide)).1 (1, 3)⟩

/-- C3: for any target outside `get_valid_moves(current_player)`,
`process_move` returns the invalid-move error of the board unchanged and the whole
session — board contents, marker position, current player, round scores and
cumulative totals — is untouched. -/
theorem process_move_invalid_spec (s : GameSession) (target : Nat × Nat)
    (h : target ∉ s.board.get_valid_moves s.current_player) :
    (s.process_move target).2 = Except.error (invalidMoveMsg target) ∧
    (s.board.make_move s.current_player target).2
      = Except.error (invalidMoveMsg target) ∧
    (s.process_move target).1 = s ∧
    (s.process_move target).1.board = s.board ∧
    (s.process_move target).1.board.cross_position = s.board.cross_position ∧
    (s.process_move target).1.current_player = s.current_player ∧
    (s.process_move target).1.scores = s.scores ∧
    (s.process_move target).1.total_scores = s.total_scores := by
  rw [process_move_of_invalid h, make_move_of_invalid h]
  exact ⟨rfl, rfl, rfl, rfl, rfl, rfl, rfl, rfl⟩

/-- Witness for C3 at a diagonal (hence invalid) target. -/
theorem process_move_invalid_spec_witness :
    ((2, 3) ∉ testSession.board.get_valid_moves testSession.current_player) ∧
    (testSession.process_move (2, 3)).2 = Except.error (invalidMoveMsg (2, 3)) :=
  ⟨by decide, (process_move_invalid_spec testSession (2, 3) (by decide)).1⟩

/-- C9: `get_piece` is total: on a well-formed board it returns the stored
piece for in-bounds coordinates and `Empty` for out-of-bounds coordinates
instead of failing. -/
theorem get_piece_spec (b : Board) (hwf : b.wellFormed) (row col : Nat) :
    b.get_piece row col =
      if row < b.size.dimensions.1 ∧ col < b.size.dimensions.2
      then b.getCell row col
      else Piece.Empty := by
  unfold Board.get_piece
  rw [hwf.1, row_length hwf (dimensions_pos b.size).1]

/-- Witness for C9 at an in-bounds and an out-of-bounds coordinate. -/
theorem get_piece_spec_witness :
    testBoard.wellFormed ∧
    testBoard.get_piece 1 3
      = (if 1 < testBoard.size.dimensions.1 ∧ 3 < testBoard.size.dimensions.2
         then testBoard.getCell 1 3 else Piece.Empty) ∧
    testBoard.get_piece 5 5
      = (if 5 < testBoard.size.dimensions.1 ∧ 5 < testBoard.size.dimensions.2
         then testBoard.getCell 5 5 else Piece.Empty) :=
  ⟨by decide, get_piece_spec testBoard (by decide) 1 3,
    get_piece_spec testBoard (by decide) 5 5⟩

/-- C1: when the target is a valid move of the current player,
`process_move` succeeds; the underlying `Board::make_move` returns the piece
previously at the target; the old cell of the marker becomes `Empty`, the target
cell becomes `Cross` and `cross_position` becomes the target; a captured
`Number(v)` adds `v` to the round total of the current player and is appended to
the capture list of that player; and the current player advances by
`next_for_mode`, whose rotation is the two-player First-Second swap and the
four-player cycle. -/
theorem process_move_valid_spec (s : GameSession) (target : Nat × Nat)
    (hwf : s.board.wellFormed)
    (hvalid : target ∈ s.board.get_valid_moves s.current_player) :
    (s.process_move target).2 = Except.ok () ∧
    (s.board.make_move s.current_player target).2
      = Except.ok (s.board.getCell target.1 target.2) ∧
    (s.process_move target).1.board.getCell
      s.board.cross_position.1 s.board.cross_position.2 = Piece.Empty ∧
    (s.process_move target).1.board.getCell target.1 target.2 = Piece.Cross ∧
    (s.process_move target).1.board.cross_position = target ∧
    (∀ v : Int, s.board.getCell target.1 target.2 = Piece.Number v →
      (s.process_move target).1.scores s.current_player
        = { pieces := (s.scores s.current_player).pieces ++ [Piece.Number v]
            total := (s.scores s.current_player).total + v } ∧
      ∀ p, p ≠ s.current_player → (s.process_move target).1.scores p = s.scores p) ∧
    (s.process_move target).1.current_player
      = s.current_player.next_for_mode s.game_mode ∧
    (Player.First.next_for_mode GameMode.TwoPlayers = Player.Second ∧
      Player.Second.next_for_mode GameMode.TwoPlayers = Player.First) ∧
    (Player.First.next_for_mode GameMode.FourPlayers = Player.Second ∧
      Player.Second.next_for_mode GameMode.FourPlayers = Player.Third ∧
      Player.Third.next_for_mode GameMode.FourPlayers = Player.Fourth ∧
      Player.Fourth.next_for_mode GameMode.FourPlayers = Player.First) := by
  obtain ⟨b2, r2, hmm⟩ : ∃ b2 r2, s.board.make_move s.current_player target = (b2, r2) :=
    ⟨_, _, rfl⟩
  have hval := make_move_of_valid hvalid
  rw [hmm] at hval
  have hr2 : r2 = Except.ok (s.board.getCell target.1 target.2) :=
    (Prod.ext_iff.mp hval).2
  obtain ⟨hsize, hcross, hwf2, hcells⟩ := make_move_cells hwf hvalid
  obtain ⟨hne, hcellne, htr, htc⟩ := valid_target_facts hwf hvalid
  simp only [hmm] at hsize hcross hwf2 hcells
  have hcellEmpty : b2.getCell s.board.cross_position.1 s.board.cross_position.2
      = Piece.Empty := by
    rw [hcells s.board.cross_position.1 s.board.cross_position.2, Prod.mk.eta,
      if_neg (fun heq => hne heq.symm), if_pos rfl]
  have hcellCross : b2.getCell target.1 target.2 = Piece.Cross := by
    rw [hcells target.1 target.2, Prod.mk.eta, if_pos rfl]
  cases hpiece : s.board.getCell target.1 target.2 with
  | Number v0 =>
    rw [hpiece] at hr2
    subst hr2
    have heq := process_move_number hmm
    refine ⟨by rw [heq], by rw [hmm], ?_, ?_, ?_, ?_, by rw [heq], by decide, by decide⟩
    · rw [heq]; exact hcellEmpty
    · rw [heq]; exact hcellCross
    · rw [heq]; exact hcross
    · intro v hv
      have hv0 : v0 = v := Piece.Number.inj hv
      subst hv0
      rw [heq]
      constructor
      · simp only [if_pos rfl]
        rfl
      · intro p hp
        simp only [if_neg hp]
  | Cross =>
    rw [hpiece] at hr2
    subst hr2
    have heq := process_move_cross hmm
    refine ⟨by rw [heq], by rw [hmm], ?_, ?_, ?_, ?_, by rw [heq], by decide, by decide⟩
    · rw [heq]; exact hcellEmpty
    · rw [heq]; exact hcellCross
    · rw [heq]; exact hcross
    · intro v hv
      exact absurd hv (by simp)
  | Empty => exact absurd hpiece hcellne

/-- Witness for C1 at the concrete test session, capturing the 5-tile. -/
theorem process_move_valid_spec_witness :
    testSession.board.wellFormed ∧
    (1, 3) ∈ testSession.board.get_valid_moves testSession.current_player ∧
    (testSession.process_move (1, 3)).2 = Except.ok () :=
  ⟨by decide, by decide,
    (process_move_valid_spec testSession (1, 3) (by decide) (by decide)).1⟩

/-- C4: every board produced by `Board::new` from any shuffle outcome has a
well-formed grid with exactly one `Cross` cell, located at `cross_position`;
and every successful `make_move` preserves this invariant: afterwards there is
still exactly one `Cross` cell and it sits at the updated `cross_position`. -/
theorem one_cross_spec :
    (∀ (size : BoardSize) (l : List Piece) (b : Board),
      l.Perm (piecesSet size) → Board.new size l = some b →
      b.wellFormed ∧ b.oneCrossAt) ∧
    (∀ (b b2 : Board) (player : Player) (target : Nat × Nat) (piece : Piece),
      b.wellFormed ∧ b.oneCrossAt →
      b.make_move player target = (b2, Except.ok piece) →
      b2.wellFormed ∧ b2.oneCrossAt) := by
  constructor
  · intro size l b hperm hnew
    refine Board.new_invariant ?_ hnew
    rw [hperm.count_eq]
    exact piecesSet_count_cross size
  · intro b b2 player target piece hinv hmove
    have hvalid := make_move_snd_valid_iff hmove
    have h2 := make_move_invariant hinv hvalid
    rw [hmove] at h2
    exact h2

/-- Witness for C4 at the unshuffled small board. -/
theorem one_cross_spec_witness :
    (piecesSet BoardSize.Small).Perm (piecesSet BoardSize.Small) ∧
    Board.new BoardSize.Small (piecesSet BoardSize.Small) = some initBoardSmall ∧
    (initBoardSmall.wellFormed ∧ initBoardSmall.oneCrossAt) :=
  ⟨List.Perm.refl _, by decide,
    one_cross_spec.1 BoardSize.Small (piecesSet BoardSize.Small) initBoardSmall
      (List.Perm.refl _) (by decide)⟩

/-- C5: for every shuffle outcome the generated tile list has exactly
`rows*cols` entries for both sizes (so the length assertion of `initialize`
never fires and construction succeeds), and the constructed grid is a
permutation of the documented multiset with no `Empty` cell. -/
theorem tile_generation_spec :
    (∀ size : BoardSize,
      (piecesSet size).length = size.dimensions.1 * size.dimensions.2) ∧
    (∀ (size : BoardSize) (l : List Piece), l.Perm (piecesSet size) →
      l.length = size.dimensions.1 * size.dimensions.2 ∧
      ∃ b : Board, Board.new size l = some b ∧
        b.pieces.flatten.Perm (documentedTiles size) ∧
        Piece.Empty ∉ b.pieces.flatten) ∧
    piecesSet BoardSize.Small = documentedTiles BoardSize.Small ∧
    piecesSet BoardSize.Large = documentedTiles BoardSize.Large := by
  have hdoc : ∀ size : BoardSize, piecesSet size = documentedTiles size := by
    intro size; cases size <;> decide
  refine ⟨piecesSet_length, ?_, hdoc _, hdoc _⟩
  intro size l hperm
  have hlen : l.length = size.dimensions.1 * size.dimensions.2 := by
    rw [hperm.length_eq]; exact piecesSet_length size
  have hfl : (buildGrid l size.dimensions.1 size.dimensions.2).flatten = l :=
    buildGrid_flatten _ _ _ hlen
  refine ⟨hlen, ⟨_, Board.new_isSome hlen, ?_, ?_⟩⟩
  · show (buildGrid l size.dimensions.1 size.dimensions.2).flatten.Perm
      (documentedTiles size)
    rw [hfl, ← hdoc size]
    exact hperm
  · show Piece.Empty ∉ (buildGrid l size.dimensions.1 size.dimensions.2).flatten
    rw [hfl]
    intro hmem
    exact piecesSet_no_empty size (hperm.mem_iff.mp hmem)

/-- Witness for C5 at the unshuffled small board. -/
theorem tile_generation_spec_witness :
    (piecesSet BoardSize.Small).Perm (piecesSet BoardSize.Small) ∧
    ((piecesSet BoardSize.Small).length
        = BoardSize.Small.dimensions.1 * BoardSize.Small.dimensions.2 ∧
      ∃ b : Board, Board.new BoardSize.Small (piecesSet BoardSize.Small) = some b ∧
        b.pieces.flatten.Perm (documentedTiles BoardSize.Small) ∧
        Piece.Empty ∉ b.pieces.flatten) :=
  ⟨List.Perm.refl _,
    tile_generation_spec.2.1 BoardSize.Small (piecesSet BoardSize.Small)
      (List.Perm.refl _)⟩

/-- C6: `get_round_winner` is `None` while the round is not over; once it is
over, it returns `some p` exactly when `p` has the strictly highest round
total among the active players, and `None` on a tie at the maximum;
`get_overall_winner` applies the same rule to cumulative totals with no
round-over precondition.  Totals 10, 10, 5 among three active players give
`None`; totals 10, 7, 5 give the 10-scorer. -/
theorem winner_resolution_spec :
    (∀ s : GameSession, s.is_round_over = false → s.get_round_winner = none) ∧
    (∀ (s : GameSession) (p : Player), s.players.Nodup → 2 ≤ s.players.length →
      (∀ q ∈ s.players, i32min ≤ (s.scores q).total) →
      s.is_round_over = true →
      (s.get_round_winner = some p ↔
        (p ∈ s.players ∧ ∀ q ∈ s.players, q ≠ p →
          (s.scores q).total < (s.scores p).total))) ∧
    (∀ (s : GameSession) (p : Player), s.players.Nodup → 2 ≤ s.players.length →
      (∀ q ∈ s.players, i32min ≤ s.total_scores q) →
      (s.get_overall_winner = some p ↔
        (p ∈ s.players ∧ ∀ q ∈ s.players, q ≠ p →
          s.total_scores q < s.total_scores p))) ∧
    tieSession.get_round_winner = none ∧
    clearSession.get_round_winner = some Player.First ∧
    tieSession.get_overall_winner = none ∧
    clearSession.get_overall_winner = some Player.First := by
  refine ⟨?_, ?_, ?_, by decide, by decide, by decide, by decide⟩
  · intro s h
    unfold GameSession.get_round_winner
    rw [h]
    simp
  · intro s p hnd hlen hmin hover
    unfold GameSession.get_round_winner
    rw [hover]
    rw [if_neg (by simp)]
    exact winnerScan_spec _ s.players hnd hlen hmin p
  · intro s p hnd hlen hmin
    unfold GameSession.get_overall_winner
    exact winnerScan_spec _ s.players hnd hlen hmin p

/-- Witness for C6 at the 10-7-5 session. -/
theorem winner_resolution_spec_witness :
    (clearSession.players.Nodup ∧ 2 ≤ clearSession.players.length ∧
      (∀ q ∈ clearSession.players, i32min ≤ (clearSession.scores q).total) ∧
      clearSession.is_round_over = true) ∧
    (clearSession.get_round_winner = some Player.First ↔
      (Player.First ∈ clearSession.players ∧
        ∀ q ∈ clearSession.players, q ≠ Player.First →
          (clearSession.scores q).total < (clearSession.scores Player.First).total)) :=
  ⟨⟨by decide, by decide, by decide, by decide⟩,
    winner_resolution_spec.2.1 clearSession Player.First (by decide) (by decide)
      (by decide) (by decide)⟩

/-- Equation form of `start_next_round` once the replacement board exists. -/
theorem start_next_round_eq {s : GameSession} {l : List Piece} {b : Board}
    (hb : Board.new s.board.size l = some b) :
    s.start_next_round l = some
      { s with
        board := b
        scores := s.players.foldl
          (fun sc p => fun q => if q = p then PlayerScore.new else sc q) s.scores
        round := s.round + 1
        total_scores := s.players.foldl
          (fun ts p => fun q => if q = p then ts p + (s.scores p).total else ts q)
          s.total_scores
        current_player :=
          if s.round + 1 > 1
          then s.players.getD ((s.round + 1 - 1) % s.players.length) Player.First
          else s.current_player } := by
  unfold GameSession.start_next_round
  rw [hb]
  rfl

/-- C7: `start_next_round` folds the round total of every active player into their
cumulative total, replaces the board by a freshly generated one of the same
size, resets the round score of every active player to empty, increments the round
counter by one, and sets the current player to
`players[(new_round - 1) % players.len()]`; mode and player list are
unchanged. -/
theorem start_next_round_spec (s : GameSession) (l : List Piece)
    (hnd : s.players.Nodup) (hround : 1 ≤ s.round)
    (hperm : l.Perm (piecesSet s.board.size)) :
    ∃ s2 : GameSession, s.start_next_round l = some s2 ∧
      (∀ p ∈ s.players, s2.total_scores p = s.total_scores p + (s.scores p).total) ∧
      Board.new s.board.size l = some s2.board ∧
      s2.board.size = s.board.size ∧
      (∀ p ∈ s.players, s2.scores p = PlayerScore.new) ∧
      s2.round = s.round + 1 ∧
      s2.current_player
        = s.players.getD ((s2.round - 1) % s.players.length) Player.First ∧
      s2.game_mode = s.game_mode ∧
      s2.players = s.players := by
  have hlen : l.length = s.board.size.dimensions.1 * s.board.size.dimensions.2 := by
    rw [hperm.length_eq]; exact piecesSet_length _
  have hnew := Board.new_isSome hlen
  have heq := start_next_round_eq hnew
  refine ⟨_, heq, ?_, ?_, ?_, ?_, rfl, ?_, rfl, rfl⟩
  · intro p hp
    have h2 := foldl_pointwise_update (fun q v => v + (s.scores q).total)
      s.players s.total_scores p hnd
    rw [if_pos hp] at h2
    exact h2
  · exact hnew
  · have hb := (Board.new_eq_some hnew).2
    rw [hb]
  · intro p hp
    have h2 := foldl_pointwise_update (fun q _ => PlayerScore.new)
      s.players s.scores p hnd
    rw [if_pos hp] at h2
    exact h2
  · show (if s.round + 1 > 1
      then s.players.getD ((s.round + 1 - 1) % s.players.length) Player.First
      else s.current_player)
      = s.players.getD ((s.round + 1 - 1) % s.players.length) Player.First
    rw [if_pos (by omega)]

/-- Witness for C7 at the concrete test session. -/
theorem start_next_round_spec_witness :
    (testSession.players.Nodup ∧ 1 ≤ testSession.round) ∧
    ∃ s2 : GameSession,
      testSession.start_next_round (piecesSet BoardSize.Small) = some s2 ∧
      (∀ p ∈ testSession.players,
        s2.total_scores p
          = testSession.total_scores p + (testSession.scores p).total) ∧
      Board.new testSession.board.size (piecesSet BoardSize.Small) = some s2.board ∧
      s2.board.size = testSession.board.size ∧
      (∀ p ∈ testSession.players, s2.scores p = PlayerScore.new) ∧
      s2.round = testSession.round + 1 ∧
      s2.current_player = testSession.players.getD
        ((s2.round - 1) % testSession.players.length) Player.First ∧
      s2.game_mode = testSession.game_mode ∧
      s2.players = testSession.players :=
  ⟨⟨by decide, by decide⟩,
    start_next_round_spec testSession (piecesSet BoardSize.Small)
      (by decide) (by decide) (List.Perm.refl _)⟩

/-- The move handling of the manager when the capture is a `Number`: one `MoveMade`
event carrying the pre-move current player, the target and the captured piece,
followed by `RoundEnded` exactly when the round just ended. -/
theorem manager_move_number {s : GameSession} {target : Nat × Nat} {v : Int}
    (hvalid : target ∈ s.board.get_valid_moves s.current_player)
    (hnum : s.board.getCell target.1 target.2 = Piece.Number v) :
    GameManager.make_move s target =
      ((s.process_move target).1,
        GameEvent.MoveMade s.current_player target (Piece.Number v) ::
          (if (s.process_move target).1.is_round_over
           then [GameEvent.RoundEnded (s.process_move target).1.get_round_winner
                   (fun p => ((s.process_move target).1.scores p).total)]
           else [])) := by
  have hmm : s.board.make_move s.current_player target
      = ((s.board.make_move s.current_player target).1, Except.ok (Piece.Number v)) := by
    rw [make_move_of_valid hvalid, hnum]
  have heq := process_move_number hmm
  unfold GameManager.make_move
  rw [heq]
  have hlast : ((((s.process_move target).1).scores s.current_player).pieces).getLastD
      Piece.Empty = Piece.Number v := by
    rw [heq]
    simp only [if_pos rfl]
    show ((s.scores s.current_player).add_piece (Piece.Number v)).pieces.getLastD
      Piece.Empty = Piece.Number v
    unfold PlayerScore.add_piece
    exact List.getLastD_concat _ _ _
  rw [heq] at hlast
  simp only at hlast ⊢
  rw [hlast]
  by_cases hover : GameSession.is_round_over
      { s with
        board := (s.board.make_move s.current_player target).1
        current_player := s.current_player.next_for_mode s.game_mode
        scores := fun p => if p = s.current_player
          then (s.scores s.current_player).add_piece (Piece.Number v)
          else s.scores p }
  · rw [if_pos hover, if_pos hover]
  · rw [if_neg hover, if_neg hover]

/-- The move handling of the manager for an invalid target: the session is left
unchanged and a single `InvalidMove` event carries the reason given by the board. -/
theorem manager_move_invalid {s : GameSession} {target : Nat × Nat}
    (h : target ∉ s.board.get_valid_moves s.current_player) :
    GameManager.make_move s target
      = (s, [GameEvent.InvalidMove s.current_player target (invalidMoveMsg target)]) := by
  have heq := process_move_of_invalid h
  unfold GameManager.make_move
  rw [heq]

/-- C8: each `GameManager::make_move` call emits exactly one event class to
every listener.  On a valid move capturing `Number(v)` it emits `MoveMade`
with the pre-move current player, the target and the captured piece, plus
`RoundEnded(round winner, round totals)` if and only if the round is now
over; on an invalid move it emits only `InvalidMove(player, target, reason)`
and the session — in particular its current player — is unchanged. -/
theorem manager_events_spec :
    (∀ (s : GameSession) (target : Nat × Nat) (v : Int),
      target ∈ s.board.get_valid_moves s.current_player →
      s.board.getCell target.1 target.2 = Piece.Number v →
      GameManager.make_move s target =
        ((s.process_move target).1,
          GameEvent.MoveMade s.current_player target (Piece.Number v) ::
            (if (s.process_move target).1.is_round_over
             then [GameEvent.RoundEnded (s.process_move target).1.get_round_winner
                     (fun p => ((s.process_move target).1.scores p).total)]
             else []))) ∧
    (∀ (s : GameSession) (target : Nat × Nat),
      target ∉ s.board.get_valid_moves s.current_player →
      GameManager.make_move s target
        = (s, [GameEvent.InvalidMove s.current_player target (invalidMoveMsg target)]) ∧
      (GameManager.make_move s target).1.current_player = s.current_player) := by
  constructor
  · intro s target v hvalid hnum
    exact manager_move_number hvalid hnum
  · intro s target h
    refine ⟨manager_move_invalid h, ?_⟩
    rw [manager_move_invalid h]

/-- Witness for C8 at the concrete test session, capturing the 5-tile. -/
theorem manager_events_spec_witness :
    ((1, 3) ∈ testSession.board.get_valid_moves testSession.current_player ∧
      testSession.board.getCell 1 3 = Piece.Number 5) ∧
    GameManager.make_move testSession (1, 3) =
      ((testSession.process_move (1, 3)).1,
        GameEvent.MoveMade testSession.current_player (1, 3) (Piece.Number 5) ::
          (if (testSession.process_move (1, 3)).1.is_round_over
           then [GameEvent.RoundEnded
                   (testSession.process_move (1, 3)).1.get_round_winner
                   (fun p => ((testSession.process_move (1, 3)).1.scores p).total)]
           else [])) :=
  ⟨⟨by decide, by decide⟩,
    manager_events_spec.1 testSession (1, 3) 5 (by decide) (by decide)⟩

/-- C10: on every board reachable from `Board::new` by successful moves,
every valid move target holds a `Number` piece — never `Cross`, never
`Empty` — so a successful `make_move` always returns `Number(v)`, the capture
is credited to the round score of the mover and capture list, and the piece in the
`MoveMade` event equals the piece actually captured. -/
theorem reachable_capture_spec (b : Board) (hreach : Board.Reachable b)
    (player : Player) (target : Nat × Nat)
    (hvalid : target ∈ b.get_valid_moves player) :
    ∃ v : Int, b.getCell target.1 target.2 = Piece.Number v ∧
      (b.make_move player target).2 = Except.ok (Piece.Number v) ∧
      ∀ s : GameSession, s.board = b → s.current_player = player →
        ((s.process_move target).1.scores player
            = { pieces := (s.scores player).pieces ++ [Piece.Number v]
                total := (s.scores player).total + v } ∧
          (GameManager.make_move s target).2
            = GameEvent.MoveMade player target (Piece.Number v) ::
                (if (s.process_move target).1.is_round_over
                 then [GameEvent.RoundEnded
                         (s.process_move target).1.get_round_winner
                         (fun p => ((s.process_move target).1.scores p).total)]
                 else [])) := by
  have hinv := reachable_invariant hreach
  obtain ⟨v, hv⟩ := valid_target_number hinv hvalid
  refine ⟨v, hv, ?_, ?_⟩
  · rw [make_move_result_of_valid hvalid, hv]
  · intro s hsb hsp
    have hvalid2 : target ∈ s.board.get_valid_moves s.current_player := by
      rw [hsb, hsp]; exact hvalid
    have hv2 : s.board.getCell target.1 target.2 = Piece.Number v := by
      rw [hsb]; exact hv
    constructor
    · have hmm : s.board.make_move s.current_player target
          = ((s.board.make_move s.current_player target).1,
             Except.ok (Piece.Number v)) := by
        rw [make_move_of_valid hvalid2, hv2]
      have heq := process_move_number hmm
      rw [heq, ← hsp]
      simp only [if_pos rfl]
      rfl
    · rw [manager_move_number hvalid2 hv2, ← hsp]

/-- Witness for C10 at the freshly generated small board, capturing the
7-tile at (3,0). -/
theorem reachable_capture_spec_witness :
    Board.Reachable initBoardSmall ∧
    ((3, 0) ∈ initBoardSmall.get_valid_moves Player.First ∧
      ∃ v : Int, initBoardSmall.getCell 3 0 = Piece.Number v ∧
        (initBoardSmall.make_move Player.First (3, 0)).2
          = Except.ok (Piece.Number v)) := by
  have hreach : Board.Reachable initBoardSmall :=
    Board.Reachable.init BoardSize.Small (piecesSet BoardSize.Small) initBoardSmall
      (List.Perm.refl _) (by decide)
  refine ⟨hreach, by decide, ?_⟩
  obtain ⟨v, hv, hok, _⟩ :=
    reachable_capture_spec initBoardSmall hreach Player.First (3, 0) (by decide)
  exact ⟨v, hv, hok⟩

end Micattix
